import Mathlib

/-!
# Verification of the kubesphere-app-tool import-and-reconciliation pipeline

Shallow embedding of `src/main.go`: the chart uploader (`uploadChart`) and the
four reconciliation stages (`updateAppStatus`, `updateAppLabel`,
`updateVersionStatus`) driven by `run`.  External collaborators (the HTTP
client, the dynamic resource client, the helm index loader) are modelled as
environments of response functions; everything the program itself computes is
translated directly from the source.
-/

set_option autoImplicit false

/-! ## Constants from `main.go` -/

/-- The sentinel category value (`mark = "openpitrix-import"` in `main.go`). -/
def mark : String := "openpitrix-import"

/-- Label key for the application category (used in the sentinel selector,
and rewritten by the final stage). -/
def categoryKey : String := "application.kubesphere.io/app-category-name"

/-- The label selector string built in `run`:
`application.kubesphere.io/app-category-name=<mark>`. -/
def sentinelSelector : String := categoryKey ++ "=" ++ mark

/-- The label patch of stage 2 (`store` in `run`). -/
def storePatch : List (String × String) :=
  [("application.kubesphere.io/app-store", "true")]

/-- The label patch of stage 4 (`categoryName` in `run`). -/
def categoryPatch : List (String × String) :=
  [(categoryKey, "kubesphere-app-uncategorized")]

/-! ## Go string-keyed maps as association lists -/

/-- First-match lookup in an association list (read access `m[k]` of a Go map). -/
def lookupL : List (String × String) → String → Option String
  | [], _ => none
  | (k', v') :: rest, k => if k' = k then some v' else lookupL rest k

/-- Write access `m[k] = v` of a (non-nil) Go map: overwrite the existing
binding or append a new one. -/
def mapInsert : List (String × String) → String → String → List (String × String)
  | [], k, v => [(k, v)]
  | (k', v') :: rest, k, v =>
    if k' = k then (k, v) :: rest else (k', v') :: mapInsert rest k v

/-- The merge loop of `updateAppLabel`:
`for k, v := range label { labels[k] = v }` on a non-nil `labels` map. -/
def mergeLabels (m patch : List (String × String)) : List (String × String) :=
  patch.foldl (fun acc kv => mapInsert acc kv.1 kv.2) m

/-! ## The chart index and the HTTP environment -/

/-- One entry of the helm index (`repo.ChartVersion`): the fields `uploadChart`
reads are `Name`, `Version`, `URLs` and `Deprecated`. -/
structure ChartVersion where
  name : String
  version : String
  urls : List String
  deprecated : Bool
deriving DecidableEq, Repr

/-- Outcome of one resty call: a transport error (`err != nil`) or a response
with a status code and a body (a byte sequence). -/
inductive HttpResult where
  | transErr
  | resp (code : Nat) (body : List Nat)
deriving DecidableEq, Repr

/-- The JSON body POSTed to the catalog API (`AppRequest` in `main.go`). -/
structure AppRequest where
  repoName : String
  package : String
  categoryName : String
  workspace : String
  appType : String
deriving DecidableEq, Repr

/-- Standard base64 alphabet (`encoding/base64.StdEncoding`). -/
def b64Alphabet : List Char :=
  "ABCDEFGHIJKLMNOPQRSTUVWXYZabcdefghijklmnopqrstuvwxyz0123456789+/".toList

/-- Character for one 6-bit group. -/
def b64Char (n : Nat) : Char := b64Alphabet.getD n 'A'

/-- `base64.StdEncoding.EncodeToString` on a byte sequence. -/
def base64Encode : List Nat → String
  | [] => ""
  | [a] =>
    String.mk [b64Char (a / 4 % 64), b64Char (a % 4 * 16), '=', '=']
  | [a, b] =>
    String.mk [b64Char (a / 4 % 64), b64Char (a % 4 * 16 + b / 16 % 16),
      b64Char (b % 16 * 4), '=']
  | a :: b :: c :: rest =>
    String.mk [b64Char (a / 4 % 64), b64Char (a % 4 * 16 + b / 16 % 16),
      b64Char (b % 16 * 4 + c / 64 % 4), b64Char (c % 64)] ++ base64Encode rest

/-- The request body built in `uploadChart` for a downloaded chart payload. -/
def mkAppRequest (body : List Nat) : AppRequest :=
  { repoName := "upload"
    package := base64Encode body
    categoryName := mark
    workspace := ""
    appType := "helm" }

/-- The POST target chosen in `uploadChart`: the create-application endpoint
when `appID == ""`, the add-version endpoint otherwise. -/
def postUrl (server appID : String) : String :=
  if appID = "" then
    server ++ "/kapis/application.kubesphere.io/v2/apps"
  else
    server ++ "/kapis/application.kubesphere.io/v2/apps/" ++ appID ++ "/versions"

/-- The HTTP collaborators of `uploadChart`: the chart download GET and the
catalog POST (both issued through the same resty client). -/
structure UploadEnv where
  download : String → HttpResult
  post : String → AppRequest → HttpResult

/-- One observable step of the per-package loop of `uploadChart`; each loop
iteration produces exactly one event for the entry it examined. -/
inductive UpEvent where
  | deprecatedStop (e : ChartVersion)
  | fetchErr (e : ChartVersion)
  | fetchBad (e : ChartVersion) (code : Nat)
  | postErr (e : ChartVersion)
  | postBad (e : ChartVersion) (code : Nat)
  | postOk (e : ChartVersion) (url : String)
deriving DecidableEq, Repr

/-- The index entry an event belongs to. -/
def UpEvent.entry : UpEvent → ChartVersion
  | .deprecatedStop e => e
  | .fetchErr e => e
  | .fetchBad e _ => e
  | .postErr e => e
  | .postBad e _ => e
  | .postOk e _ => e

/-- Whether an event records a successful upload (`success++` in the source). -/
def UpEvent.isPostOk : UpEvent → Bool
  | .postOk _ _ => true
  | _ => false

/-- Number of successful uploads recorded in a trace. -/
def countPostOk (evs : List UpEvent) : Nat := (evs.filter UpEvent.isPostOk).length

/-- The inner `for _, entry := range entries` loop of `uploadChart`, threading
the per-package state (`appID`, `success`).  The source never assigns `appID`
after its initialisation, so the parameter is threaded unchanged.  The result
is `none` when the loop panics (the unconditional `entry.URLs[0]` on an entry
with no URLs), otherwise the ordered trace of loop events. -/
def processEntries (env : UploadEnv) (server : String) (limit : Int) :
    List ChartVersion → String → Nat → Option (List UpEvent)
  | [], _, _ => some []
  | e :: rest, appID, success =>
    if e.deprecated then
      some [UpEvent.deprecatedStop e]
    else
      match e.urls with
      | [] => none
      | u :: _ =>
        match env.download u with
        | HttpResult.transErr =>
          (processEntries env server limit rest appID success).map
            (fun t => UpEvent.fetchErr e :: t)
        | HttpResult.resp code body =>
          if 399 < code then
            (processEntries env server limit rest appID success).map
              (fun t => UpEvent.fetchBad e code :: t)
          else
            let url := postUrl server appID
            match env.post url (mkAppRequest body) with
            | HttpResult.transErr =>
              (processEntries env server limit rest appID success).map
                (fun t => UpEvent.postErr e :: t)
            | HttpResult.resp pcode _ =>
              if 399 < pcode then
                (processEntries env server limit rest appID success).map
                  (fun t => UpEvent.postBad e pcode :: t)
              else
                if limit ≤ Int.ofNat (success + 1) then
                  some [UpEvent.postOk e url]
                else
                  (processEntries env server limit rest appID (success + 1)).map
                    (fun t => UpEvent.postOk e url :: t)

/-- `uploadChart` after the index is loaded: iterate the packages, running the
per-package loop with fresh state `appID := ""`, `success := 0`.  The second
component of the result is the Go error value returned to `run`, which the
source always leaves `nil` (`return nil`); the outer `none` is a panic
propagated from a package loop. -/
def uploadChart (env : UploadEnv) (server : String) (limit : Int) :
    List (String × List ChartVersion) → Option (List (String × List UpEvent) × Option String)
  | [] => some ([], none)
  | (nm, es) :: rest =>
    match processEntries env server limit es "" 0 with
    | none => none
    | some evs =>
      (uploadChart env server limit rest).map (fun r => ((nm, evs) :: r.1, r.2))

/-! ## `main`: client construction and token acquisition order -/

/-- `fmt.Sprintf("Bearer %s", token)` used for the Authorization header. -/
def authHeader (tok : String) : String := "Bearer " ++ tok

/-- Observable outcome of `main`'s setup: the Authorization header carried by
the resty client, and the final value of the global `token`. -/
structure MainFlow where
  header : String
  token : String
deriving DecidableEq, Repr

/-- Embeds the order of operations of `main`: the resty client (and its
Authorization header) is built from the global `token` while it still holds
its zero value, *before* cobra binds the `--token` flag and before the `Run`
closure falls back to the token file. -/
def mainFlow (flagToken fileToken : String) : MainFlow :=
  let header := authHeader ""
  let tok := flagToken
  let tok := if tok = "" then fileToken else tok
  { header := header, token := tok }

/-! ## Cluster resources: applications and application versions -/

/-- An application record as seen through the dynamic client: the fields the
reconciliation stages read or write.  `labels` is `none` when the object has a
nil label map (`GetLabels` returning nil). -/
structure KApp where
  name : String
  labels : Option (List (String × String))
  statusState : String
  statusUpdateTime : String
deriving DecidableEq, Repr

/-- An application-version record: the status fields `updateVersionStatus`
writes. -/
structure KVersion where
  name : String
  statusUpdated : String
  statusUserName : String
  statusState : String
deriving DecidableEq, Repr

/-- The in-memory mutation of `updateAppStatus`:
`status.state := "active"` and `status.updateTime := now`. -/
def setAppActive (now : String) (a : KApp) : KApp :=
  { a with statusState := "active", statusUpdateTime := now }

/-- The in-memory mutation of `updateVersionStatus` on one version:
`status.updated := now`, `status.userName := "admin"`,
`status.state := "active"`. -/
def setVersionActive (now : String) (v : KVersion) : KVersion :=
  { v with statusUpdated := now, statusUserName := "admin", statusState := "active" }

/-- `labels := item.GetLabels(); for k, v := range label { labels[k] = v }`:
writing into a nil map panics (outer `none`) as soon as the patch is
non-empty; otherwise the result is the (possibly still nil) label map to pass
to `SetLabels`. -/
def goMapPatch (labels : Option (List (String × String)))
    (patch : List (String × String)) : Option (Option (List (String × String))) :=
  match labels, patch with
  | some m, p => some (some (mergeLabels m p))
  | none, [] => some none
  | none, _ :: _ => none

/-- The label mutation of `updateAppLabel` on one listed item; `none` is the
nil-map write panic. -/
def patchApp (patch : List (String × String)) (a : KApp) : Option KApp :=
  (goMapPatch a.labels patch).map (fun l => { a with labels := l })

/-- Total description of the label mutation on an item whose label map is
present; used to state what `patchApp` does when it cannot panic. -/
def patchAppT (patch : List (String × String)) (a : KApp) : KApp :=
  { a with labels := some (mergeLabels (a.labels.getD []) patch) }

/-- A read-then-write stage loop: mutate each listed item in memory and issue
its update call; the first failing call ends the loop with that error.  The
returned list is the sequence of update calls issued (last one failing when
the error is `some`). -/
def stageLoop {α : Type} (mutate : α → α) (upd : α → Except String Unit) :
    List α → List α × Option String
  | [] => ([], none)
  | a :: rest =>
    let a' := mutate a
    match upd a' with
    | Except.error e => ([a'], some e)
    | Except.ok _ =>
      let r := stageLoop mutate upd rest
      (a' :: r.1, r.2)

/-- Collaborators of `updateAppStatus`: the application list call and the
status-subresource update call. -/
structure AppStatusEnv where
  listApps : Except String (List KApp)
  updStatus : KApp → Except String Unit

/-- `updateAppStatus`: list the applications matched by the selector, then for
each one set the active status and issue an `UpdateStatus` call, returning the
first error immediately. -/
def updateAppStatus (env : AppStatusEnv) (now : String) :
    List KApp × Option String :=
  match env.listApps with
  | Except.error e => ([], some e)
  | Except.ok items => stageLoop (setAppActive now) env.updStatus items

/-- Collaborators of `updateAppLabel`: the application list call and the
full-object update call. -/
structure LabelEnv where
  listApps : Except String (List KApp)
  updApp : KApp → Except String Unit

/-- The per-item loop of `updateAppLabel`; outer `none` is the nil-label-map
panic. -/
def labelLoop (patch : List (String × String)) (upd : KApp → Except String Unit) :
    List KApp → Option (List KApp × Option String)
  | [] => some ([], none)
  | a :: rest =>
    match patchApp patch a with
    | none => none
    | some a' =>
      match upd a' with
      | Except.error e => some ([a'], some e)
      | Except.ok _ =>
        (labelLoop patch upd rest).map (fun r => (a' :: r.1, r.2))

/-- `updateAppLabel`: list the matched applications, merge the patch into each
item's labels and issue a full-object `Update`, returning the first error
immediately. -/
def updateAppLabel (env : LabelEnv) (patch : List (String × String)) :
    Option (List KApp × Option String) :=
  match env.listApps with
  | Except.error e => some ([], some e)
  | Except.ok items => labelLoop patch env.updApp items

/-- Collaborators of `updateVersionStatus`: the application list call, the
per-application version list call (selector
`application.kubesphere.io/app-id=<app name>`), and the version
status-subresource update call. -/
structure VersionEnv where
  listApps : Except String (List KApp)
  listVersions : String → Except String (List KVersion)
  updVersion : KVersion → Except String Unit

/-- The outer `for _, item := range list.Items` loop of `updateVersionStatus`:
per application, list its versions and run the inner update loop; any error
ends the whole stage. -/
def versionAppsLoop (env : VersionEnv) (now : String) :
    List KApp → List KVersion × Option String
  | [] => ([], none)
  | a :: rest =>
    match env.listVersions a.name with
    | Except.error e => ([], some e)
    | Except.ok vs =>
      let r := stageLoop (setVersionActive now) env.updVersion vs
      match r.2 with
      | some e => (r.1, some e)
      | none =>
        let r2 := versionAppsLoop env now rest
        (r.1 ++ r2.1, r2.2)

/-- `updateVersionStatus`: list the matched applications, then for each one
list and activate its versions, returning the first error immediately. -/
def updateVersionStatus (env : VersionEnv) (now : String) :
    List KVersion × Option String :=
  match env.listApps with
  | Except.error e => ([], some e)
  | Except.ok apps => versionAppsLoop env now apps

/-! ## `run`: the four-stage orchestration -/

/-- The four reconciliation stages invoked by `run`, in source order. -/
inductive Stage where
  | appStatus
  | storeLabel
  | versionStatus
  | categoryLabel
deriving DecidableEq, Repr

/-- The full stage order of `run`. -/
def fourStages : List Stage :=
  [Stage.appStatus, Stage.storeLabel, Stage.versionStatus, Stage.categoryLabel]

/-- How the `run` function ends: all stages succeeded, `log.Fatal` on a stage
error (process exits), or a panic inside a stage. -/
inductive RunResult where
  | ok
  | fatal (e : String)
  | panicked
deriving DecidableEq, Repr

/-- The collaborators of the four stages of `run`. -/
structure RunEnv where
  s1 : AppStatusEnv
  s2 : LabelEnv
  s3 : VersionEnv
  s4 : LabelEnv

/-- The stage sequence of `run` after `uploadChart` returns: app status, then
the store label patch, then version status, then the category label rewrite;
`log.Fatal` stops the run at the first stage error.  Returns the stages that
were invoked, in order, and how the run ended. -/
def run (env : RunEnv) (now : String) : List Stage × RunResult :=
  match (updateAppStatus env.s1 now).2 with
  | some e => ([Stage.appStatus], RunResult.fatal e)
  | none =>
    match updateAppLabel env.s2 storePatch with
    | none => ([Stage.appStatus, Stage.storeLabel], RunResult.panicked)
    | some r2 =>
      match r2.2 with
      | some e => ([Stage.appStatus, Stage.storeLabel], RunResult.fatal e)
      | none =>
        match (updateVersionStatus env.s3 now).2 with
        | some e =>
          ([Stage.appStatus, Stage.storeLabel, Stage.versionStatus],
            RunResult.fatal e)
        | none =>
          match updateAppLabel env.s4 categoryPatch with
          | none => (fourStages, RunResult.panicked)
          | some r4 =>
            match r4.2 with
            | some e => (fourStages, RunResult.fatal e)
            | none => (fourStages, RunResult.ok)

/-- Whether an application is matched by a `key=val` label selector. -/
def matchesSelector (key val : String) (a : KApp) : Bool :=
  match a.labels with
  | none => false
  | some m => lookupL m key == some val

/-! ## Concrete fixtures used to instantiate theorems -/

/-- An HTTP environment where every download and every upload succeeds. -/
def envAllOk : UploadEnv :=
  { download := fun _ => HttpResult.resp 200 [1]
    post := fun _ _ => HttpResult.resp 200 [] }

/-- An HTTP environment where every download hits a transport error. -/
def envDownErr : UploadEnv :=
  { download := fun _ => HttpResult.transErr
    post := fun _ _ => HttpResult.resp 200 [] }

/-- A plain non-deprecated index entry. -/
def ce1 : ChartVersion :=
  { name := "pkg", version := "1.0.0", urls := ["u1"], deprecated := false }

/-- A second non-deprecated index entry of the same package. -/
def ce2 : ChartVersion :=
  { name := "pkg", version := "0.9.0", urls := ["u2"], deprecated := false }

/-- A deprecated index entry. -/
def ced : ChartVersion :=
  { name := "pkg", version := "0.8.0", urls := ["u3"], deprecated := true }

/-- A non-deprecated entry with an empty URL list. -/
def ceNoUrl : ChartVersion :=
  { name := "pkg", version := "0.7.0", urls := [], deprecated := false }

/-! ## One-step unfolding lemmas for the per-package loop -/

lemma processEntries_deprecated (env : UploadEnv) (server : String) (limit : Int)
    (e : ChartVersion) (rest : List ChartVersion) (appID : String) (succ : Nat)
    (hd : e.deprecated = true) :
    processEntries env server limit (e :: rest) appID succ =
      some [UpEvent.deprecatedStop e] := by
  simp [processEntries, hd]

lemma processEntries_noUrl (env : UploadEnv) (server : String) (limit : Int)
    (e : ChartVersion) (rest : List ChartVersion) (appID : String) (succ : Nat)
    (hd : e.deprecated = false) (hu : e.urls = []) :
    processEntries env server limit (e :: rest) appID succ = none := by
  simp [processEntries, hd, hu]

lemma processEntries_fetchErr (env : UploadEnv) (server : String) (limit : Int)
    (e : ChartVersion) (rest : List ChartVersion) (appID : String) (succ : Nat)
    (u : String) (us : List String)
    (hd : e.deprecated = false) (hu : e.urls = u :: us)
    (hdl : env.download u = HttpResult.transErr) :
    processEntries env server limit (e :: rest) appID succ =
      (processEntries env server limit rest appID succ).map
        (fun t => UpEvent.fetchErr e :: t) := by
  simp [processEntries, hd, hu, hdl]

lemma processEntries_fetchBad (env : UploadEnv) (server : String) (limit : Int)
    (e : ChartVersion) (rest : List ChartVersion) (appID : String) (succ : Nat)
    (u : String) (us : List String) (code : Nat) (body : List Nat)
    (hd : e.deprecated = false) (hu : e.urls = u :: us)
    (hdl : env.download u = HttpResult.resp code body) (hc : 399 < code) :
    processEntries env server limit (e :: rest) appID succ =
      (processEntries env server limit rest appID succ).map
        (fun t => UpEvent.fetchBad e code :: t) := by
  simp [processEntries, hd, hu, hdl, hc]

lemma processEntries_postErr (env : UploadEnv) (server : String) (limit : Int)
    (e : ChartVersion) (rest : List ChartVersion) (appID : String) (succ : Nat)
    (u : String) (us : List String) (code : Nat) (body : List Nat)
    (hd : e.deprecated = false) (hu : e.urls = u :: us)
    (hdl : env.download u = HttpResult.resp code body) (hc : ¬ 399 < code)
    (hp : env.post (postUrl server appID) (mkAppRequest body) = HttpResult.transErr) :
    processEntries env server limit (e :: rest) appID succ =
      (processEntries env server limit rest appID succ).map
        (fun t => UpEvent.postErr e :: t) := by
  simp [processEntries, hd, hu, hdl, hc, hp]

lemma processEntries_postBad (env : UploadEnv) (server : String) (limit : Int)
    (e : ChartVersion) (rest : List ChartVersion) (appID : String) (succ : Nat)
    (u : String) (us : List String) (code : Nat) (body : List Nat)
    (pcode : Nat) (pbody : List Nat)
    (hd : e.deprecated = false) (hu : e.urls = u :: us)
    (hdl : env.download u = HttpResult.resp code body) (hc : ¬ 399 < code)
    (hp : env.post (postUrl server appID) (mkAppRequest body) =
      HttpResult.resp pcode pbody) (hpc : 399 < pcode) :
    processEntries env server limit (e :: rest) appID succ =
      (processEntries env server limit rest appID succ).map
        (fun t => UpEvent.postBad e pcode :: t) := by
  simp [processEntries, hd, hu, hdl, hc, hp, hpc]

lemma processEntries_postOk_limit (env : UploadEnv) (server : String) (limit : Int)
    (e : ChartVersion) (rest : List ChartVersion) (appID : String) (succ : Nat)
    (u : String) (us : List String) (code : Nat) (body : List Nat)
    (pcode : Nat) (pbody : List Nat)
    (hd : e.deprecated = false) (hu : e.urls = u :: us)
    (hdl : env.download u = HttpResult.resp code body) (hc : ¬ 399 < code)
    (hp : env.post (postUrl server appID) (mkAppRequest body) =
      HttpResult.resp pcode pbody) (hpc : ¬ 399 < pcode)
    (hl : limit ≤ Int.ofNat (succ + 1)) :
    processEntries env server limit (e :: rest) appID succ =
      some [UpEvent.postOk e (postUrl server appID)] := by
  have hl' : limit ≤ (succ : Int) + 1 := by simpa using hl
  simp [processEntries, hd, hu, hdl, hc, hp, hpc, hl']

lemma processEntries_postOk_cont (env : UploadEnv) (server : String) (limit : Int)
    (e : ChartVersion) (rest : List ChartVersion) (appID : String) (succ : Nat)
    (u : String) (us : List String) (code : Nat) (body : List Nat)
    (pcode : Nat) (pbody : List Nat)
    (hd : e.deprecated = false) (hu : e.urls = u :: us)
    (hdl : env.download u = HttpResult.resp code body) (hc : ¬ 399 < code)
    (hp : env.post (postUrl server appID) (mkAppRequest body) =
      HttpResult.resp pcode pbody) (hpc : ¬ 399 < pcode)
    (hl : ¬ limit ≤ Int.ofNat (succ + 1)) :
    processEntries env server limit (e :: rest) appID succ =
      (processEntries env server limit rest appID (succ + 1)).map
        (fun t => UpEvent.postOk e (postUrl server appID) :: t) := by
  have hl' : ¬ limit ≤ (succ : Int) + 1 := by simpa using hl
  simp [processEntries, hd, hu, hdl, hc, hp, hpc, hl']

/-! ## C1 and C2: observed behaviour at the failing inputs -/

/-- C1: the claim says the second successful upload of a package POSTs to the
add-version endpoint of the application created by the first one.  The code
never assigns `appID` from the creation response (the parsed `appName` is
dead), so with limit 2 and two entries whose downloads and uploads both
succeed, *both* POSTs target the create-application endpoint. -/
theorem c1_second_upload_posts_to_create_endpoint :
    processEntries envAllOk "S" 2 [ce1, ce2] "" 0 =
      some [UpEvent.postOk ce1 "S/kapis/application.kubesphere.io/v2/apps",
        UpEvent.postOk ce2 "S/kapis/application.kubesphere.io/v2/apps"] ∧
    postUrl "S" "" = "S/kapis/application.kubesphere.io/v2/apps" := by
  constructor <;> decide

/-- C2: the claim says every request carries `Bearer <token>` with the token
taken from the `--token` flag or the token file.  `main` builds the resty
client, Authorization header included, from the global `token` *before* cobra
parses the flags and before the file fallback runs, so the header is
`"Bearer "` with an empty token even when a flag or file token is supplied. -/
theorem c2_header_built_before_token_is_known :
    mainFlow "secret-token" "file-token" =
      { header := "Bearer ", token := "secret-token" } ∧
    (mainFlow "secret-token" "file-token").header ≠
      authHeader (mainFlow "secret-token" "file-token").token ∧
    mainFlow "" "file-token" = { header := "Bearer ", token := "file-token" } ∧
    (mainFlow "" "file-token").header ≠
      authHeader (mainFlow "" "file-token").token := by
  refine ⟨by decide, by decide, by decide, by decide⟩

/-! ## C3: the deprecated-entry break -/

/-- C3 (amended): in each package the loop stops at the first deprecated
entry; the events of the produced trace are a prefix of the entries up to and
including that entry (so nothing after it is ever attempted), and when the
success limit cannot be reached among the preceding entries
(`succ + pre.length < limit`) every entry before the deprecated one is
attempted and the trace covers exactly `pre ++ [d]`. -/
theorem c3_stops_at_first_deprecated (env : UploadEnv) (server : String)
    (limit : Int) (pre : List ChartVersion) (d : ChartVersion)
    (post : List ChartVersion) (appID : String) (succ : Nat)
    (hpre : ∀ e ∈ pre, e.deprecated = false ∧ e.urls ≠ [])
    (hd : d.deprecated = true) :
    ∃ evs, processEntries env server limit (pre ++ d :: post) appID succ = some evs ∧
      (∃ k, List.map UpEvent.entry evs = (pre ++ [d]).take k) ∧
      (Int.ofNat (succ + pre.length) < limit →
        List.map UpEvent.entry evs = pre ++ [d]) := by
  induction pre generalizing succ with
  | nil =>
    refine ⟨[UpEvent.deprecatedStop d], ?_, ⟨1, ?_⟩, fun _ => ?_⟩
    · simpa using processEntries_deprecated env server limit d post appID succ hd
    · simp [UpEvent.entry]
    · simp [UpEvent.entry]
  | cons e pre ih =>
    obtain ⟨he, hu⟩ := hpre e (by simp)
    have hpre' : ∀ x ∈ pre, x.deprecated = false ∧ x.urls ≠ [] :=
      fun x hx => hpre x (by simp [hx])
    obtain ⟨u, us, hul⟩ : ∃ u us, e.urls = u :: us := by
      cases hul : e.urls with
      | nil => exact absurd hul hu
      | cons u us => exact ⟨u, us, rfl⟩
    rw [List.cons_append]
    cases hdl : env.download u with
    | transErr =>
      obtain ⟨evs, heq, ⟨k, hk⟩, hfull⟩ := ih succ hpre'
      rw [processEntries_fetchErr env server limit e (pre ++ d :: post) appID succ
        u us he hul hdl, heq]
      refine ⟨UpEvent.fetchErr e :: evs, rfl, ⟨k + 1, ?_⟩, fun hlt => ?_⟩
      · simp [UpEvent.entry, hk]
      · have hlt' : Int.ofNat (succ + pre.length) < limit := by
          simp only [List.length_cons, Int.ofNat_eq_coe] at hlt ⊢; push_cast at hlt ⊢; omega
        simp [UpEvent.entry, hfull hlt']
    | resp code body =>
      by_cases hc : 399 < code
      · obtain ⟨evs, heq, ⟨k, hk⟩, hfull⟩ := ih succ hpre'
        rw [processEntries_fetchBad env server limit e (pre ++ d :: post) appID succ
          u us code body he hul hdl hc, heq]
        refine ⟨UpEvent.fetchBad e code :: evs, rfl, ⟨k + 1, ?_⟩, fun hlt => ?_⟩
        · simp [UpEvent.entry, hk]
        · have hlt' : Int.ofNat (succ + pre.length) < limit := by
            simp only [List.length_cons, Int.ofNat_eq_coe] at hlt ⊢; push_cast at hlt ⊢; omega
          simp [UpEvent.entry, hfull hlt']
      · cases hp : env.post (postUrl server appID) (mkAppRequest body) with
        | transErr =>
          obtain ⟨evs, heq, ⟨k, hk⟩, hfull⟩ := ih succ hpre'
          rw [processEntries_postErr env server limit e (pre ++ d :: post) appID succ
            u us code body he hul hdl hc hp, heq]
          refine ⟨UpEvent.postErr e :: evs, rfl, ⟨k + 1, ?_⟩, fun hlt => ?_⟩
          · simp [UpEvent.entry, hk]
          · have hlt' : Int.ofNat (succ + pre.length) < limit := by
              simp only [List.length_cons, Int.ofNat_eq_coe] at hlt ⊢; push_cast at hlt ⊢; omega
            simp [UpEvent.entry, hfull hlt']
        | resp pcode pbody =>
          by_cases hpc : 399 < pcode
          · obtain ⟨evs, heq, ⟨k, hk⟩, hfull⟩ := ih succ hpre'
            rw [processEntries_postBad env server limit e (pre ++ d :: post) appID succ
              u us code body pcode pbody he hul hdl hc hp hpc, heq]
            refine ⟨UpEvent.postBad e pcode :: evs, rfl, ⟨k + 1, ?_⟩, fun hlt => ?_⟩
            · simp [UpEvent.entry, hk]
            · have hlt' : Int.ofNat (succ + pre.length) < limit := by
                simp only [List.length_cons, Int.ofNat_eq_coe] at hlt ⊢; push_cast at hlt ⊢; omega
              simp [UpEvent.entry, hfull hlt']
          · by_cases hl : limit ≤ Int.ofNat (succ + 1)
            · rw [processEntries_postOk_limit env server limit e (pre ++ d :: post)
                appID succ u us code body pcode pbody he hul hdl hc hp hpc hl]
              refine ⟨[UpEvent.postOk e (postUrl server appID)], rfl, ⟨1, ?_⟩,
                fun hlt => ?_⟩
              · simp [UpEvent.entry]
              · exfalso
                simp only [List.length_cons, Int.ofNat_eq_coe] at hlt
                simp only [Int.ofNat_eq_coe] at hl
                push_cast at hlt hl
                omega
            · obtain ⟨evs, heq, ⟨k, hk⟩, hfull⟩ := ih (succ + 1) hpre'
              rw [processEntries_postOk_cont env server limit e (pre ++ d :: post)
                appID succ u us code body pcode pbody he hul hdl hc hp hpc hl, heq]
              refine ⟨UpEvent.postOk e (postUrl server appID) :: evs, rfl,
                ⟨k + 1, ?_⟩, fun hlt => ?_⟩
              · simp [UpEvent.entry, hk]
              · have hlt' : Int.ofNat ((succ + 1) + pre.length) < limit := by
                  simp only [List.length_cons, Int.ofNat_eq_coe] at hlt ⊢; push_cast at hlt ⊢; omega
                simp [UpEvent.entry, hfull hlt']

/-- Counterexample to C3 as stated: with limit 1, entry `ce2` precedes the
first deprecated entry `ced` in index order yet is never attempted, because
the success limit stops the package after `ce1`. -/
theorem c3_cex_limit_break_skips_entry_before_deprecated :
    processEntries envAllOk "S" 1 [ce1, ce2, ced] "" 0 =
      some [UpEvent.postOk ce1 "S/kapis/application.kubesphere.io/v2/apps"] ∧
    ce2.deprecated = false ∧ ced.deprecated = true ∧
    ce2 ∉ List.map UpEvent.entry
      [UpEvent.postOk ce1 "S/kapis/application.kubesphere.io/v2/apps"] := by
  refine ⟨by decide, by decide, by decide, by decide⟩

/-- Witness for C3: with ample limit, the package `[ce1, ced, ce2]` attempts
exactly `ce1` and the deprecated `ced`, never `ce2`. -/
theorem c3_witness :
    ∃ evs, processEntries envAllOk "S" 5 [ce1, ced, ce2] "" 0 = some evs ∧
      List.map UpEvent.entry evs = [ce1, ced] := by
  obtain ⟨evs, heq, _, hfull⟩ :=
    c3_stops_at_first_deprecated envAllOk "S" 5 [ce1] ced [ce2] "" 0
      (by decide) (by decide)
  exact ⟨evs, heq, by simpa using hfull (by decide)⟩

/-! ## C4: the per-package success limit -/

lemma countPostOk_cons (x : UpEvent) (t : List UpEvent) :
    countPostOk (x :: t) = (if x.isPostOk then 1 else 0) + countPostOk t := by
  cases hx : x.isPostOk <;> simp [countPostOk, List.filter_cons, hx]
  omega

lemma c4_count_le (env : UploadEnv) (server : String) (limit : Int) :
    ∀ (l : List ChartVersion) (appID : String) (succ : Nat) (evs : List UpEvent),
      processEntries env server limit l appID succ = some evs →
      Int.ofNat succ < limit →
      Int.ofNat (succ + countPostOk evs) ≤ limit := by
  intro l
  induction l with
  | nil =>
    intro appID succ evs heq hlt
    simp only [processEntries, Option.some.injEq] at heq
    subst heq
    simpa [countPostOk] using hlt.le
  | cons e rest ih =>
    intro appID succ evs heq hlt
    by_cases hd : e.deprecated = true
    · rw [processEntries_deprecated env server limit e rest appID succ hd] at heq
      simp only [Option.some.injEq] at heq
      subst heq
      simpa [countPostOk, UpEvent.isPostOk, List.filter] using hlt.le
    · have hd' : e.deprecated = false := by simpa using hd
      cases hul : e.urls with
      | nil =>
        rw [processEntries_noUrl env server limit e rest appID succ hd' hul] at heq
        exact absurd heq (by simp)
      | cons u us =>
        cases hdl : env.download u with
        | transErr =>
          rw [processEntries_fetchErr env server limit e rest appID succ
            u us hd' hul hdl] at heq
          obtain ⟨t, ht, rfl⟩ := Option.map_eq_some'.mp heq
          have := ih appID succ t ht hlt
          simpa [countPostOk_cons, UpEvent.isPostOk] using this
        | resp code body =>
          by_cases hc : 399 < code
          · rw [processEntries_fetchBad env server limit e rest appID succ
              u us code body hd' hul hdl hc] at heq
            obtain ⟨t, ht, rfl⟩ := Option.map_eq_some'.mp heq
            have := ih appID succ t ht hlt
            simpa [countPostOk_cons, UpEvent.isPostOk] using this
          · cases hp : env.post (postUrl server appID) (mkAppRequest body) with
            | transErr =>
              rw [processEntries_postErr env server limit e rest appID succ
                u us code body hd' hul hdl hc hp] at heq
              obtain ⟨t, ht, rfl⟩ := Option.map_eq_some'.mp heq
              have := ih appID succ t ht hlt
              simpa [countPostOk_cons, UpEvent.isPostOk] using this
            | resp pcode pbody =>
              by_cases hpc : 399 < pcode
              · rw [processEntries_postBad env server limit e rest appID succ
                  u us code body pcode pbody hd' hul hdl hc hp hpc] at heq
                obtain ⟨t, ht, rfl⟩ := Option.map_eq_some'.mp heq
                have := ih appID succ t ht hlt
                simpa [countPostOk_cons, UpEvent.isPostOk] using this
              · by_cases hl : limit ≤ Int.ofNat (succ + 1)
                · rw [processEntries_postOk_limit env server limit e rest appID succ
                    u us code body pcode pbody hd' hul hdl hc hp hpc hl] at heq
                  simp only [Option.some.injEq] at heq
                  subst heq
                  have hcnt :
                      countPostOk [UpEvent.postOk e (postUrl server appID)] = 1 := rfl
                  rw [hcnt]
                  simp only [Int.ofNat_eq_coe] at hlt ⊢
                  push_cast at hlt ⊢
                  omega
                · rw [processEntries_postOk_cont env server limit e rest appID succ
                    u us code body pcode pbody hd' hul hdl hc hp hpc hl] at heq
                  obtain ⟨t, ht, rfl⟩ := Option.map_eq_some'.mp heq
                  have hlt' : Int.ofNat (succ + 1) < limit := by
                    simp only [Int.ofNat_eq_coe] at hl ⊢
                    omega
                  have := ih appID (succ + 1) t ht hlt'
                  simp only [countPostOk_cons, UpEvent.isPostOk, Int.ofNat_eq_coe]
                    at this ⊢
                  push_cast at this ⊢
                  omega

lemma c4_stop (env : UploadEnv) (server : String) (limit : Int) :
    ∀ (l : List ChartVersion) (appID : String) (succ : Nat) (evs : List UpEvent),
      processEntries env server limit l appID succ = some evs →
      Int.ofNat succ < limit →
      ∀ evs₁ evs₂, evs = evs₁ ++ evs₂ →
        limit ≤ Int.ofNat (succ + countPostOk evs₁) → evs₂ = [] := by
  intro l
  induction l with
  | nil =>
    intro appID succ evs heq hlt evs₁ evs₂ happ hle
    simp only [processEntries, Option.some.injEq] at heq
    subst heq
    exact (List.append_eq_nil.mp happ.symm).2
  | cons e rest ih =>
    intro appID succ evs heq hlt evs₁ evs₂ happ hle
    by_cases hd : e.deprecated = true
    · rw [processEntries_deprecated env server limit e rest appID succ hd] at heq
      simp only [Option.some.injEq] at heq
      subst heq
      cases evs₁ with
      | nil =>
        exfalso
        have h0 : countPostOk ([] : List UpEvent) = 0 := rfl
        rw [h0] at hle
        simp only [Int.ofNat_eq_coe] at hle hlt
        push_cast at hle hlt
        omega
      | cons y ys =>
        rw [List.cons_append] at happ
        injection happ with h1 h2
        exact (List.append_eq_nil.mp h2.symm).2
    · have hd' : e.deprecated = false := by simpa using hd
      cases hul : e.urls with
      | nil =>
        rw [processEntries_noUrl env server limit e rest appID succ hd' hul] at heq
        exact absurd heq (by simp)
      | cons u us =>
        cases hdl : env.download u with
        | transErr =>
          rw [processEntries_fetchErr env server limit e rest appID succ
            u us hd' hul hdl] at heq
          obtain ⟨t, ht, rfl⟩ := Option.map_eq_some'.mp heq
          cases evs₁ with
          | nil =>
            exfalso
            have h0 : countPostOk ([] : List UpEvent) = 0 := rfl
            rw [h0] at hle
            simp only [Int.ofNat_eq_coe] at hle hlt
            push_cast at hle hlt
            omega
          | cons y ys =>
            rw [List.cons_append] at happ
            injection happ with h1 h2
            refine ih appID succ t ht hlt ys evs₂ h2 ?_
            rw [← h1] at hle
            have hc : countPostOk (UpEvent.fetchErr e :: ys) = countPostOk ys := by
              simp [countPostOk_cons, UpEvent.isPostOk]
            rwa [hc] at hle
        | resp code body =>
          by_cases hc : 399 < code
          · rw [processEntries_fetchBad env server limit e rest appID succ
              u us code body hd' hul hdl hc] at heq
            obtain ⟨t, ht, rfl⟩ := Option.map_eq_some'.mp heq
            cases evs₁ with
            | nil =>
              exfalso
              have h0 : countPostOk ([] : List UpEvent) = 0 := rfl
              rw [h0] at hle
              simp only [Int.ofNat_eq_coe] at hle hlt
              push_cast at hle hlt
              omega
            | cons y ys =>
              rw [List.cons_append] at happ
              injection happ with h1 h2
              refine ih appID succ t ht hlt ys evs₂ h2 ?_
              rw [← h1] at hle
              have hcn : countPostOk (UpEvent.fetchBad e code :: ys) = countPostOk ys := by
                simp [countPostOk_cons, UpEvent.isPostOk]
              rwa [hcn] at hle
          · cases hp : env.post (postUrl server appID) (mkAppRequest body) with
            | transErr =>
              rw [processEntries_postErr env server limit e rest appID succ
                u us code body hd' hul hdl hc hp] at heq
              obtain ⟨t, ht, rfl⟩ := Option.map_eq_some'.mp heq
              cases evs₁ with
              | nil =>
                exfalso
                have h0 : countPostOk ([] : List UpEvent) = 0 := rfl
                rw [h0] at hle
                simp only [Int.ofNat_eq_coe] at hle hlt
                push_cast at hle hlt
                omega
              | cons y ys =>
                rw [List.cons_append] at happ
                injection happ with h1 h2
                refine ih appID succ t ht hlt ys evs₂ h2 ?_
                rw [← h1] at hle
                have hcn : countPostOk (UpEvent.postErr e :: ys) = countPostOk ys := by
                  simp [countPostOk_cons, UpEvent.isPostOk]
                rwa [hcn] at hle
            | resp pcode pbody =>
              by_cases hpc : 399 < pcode
              · rw [processEntries_postBad env server limit e rest appID succ
                  u us code body pcode pbody hd' hul hdl hc hp hpc] at heq
                obtain ⟨t, ht, rfl⟩ := Option.map_eq_some'.mp heq
                cases evs₁ with
                | nil =>
                  exfalso
                  have h0 : countPostOk ([] : List UpEvent) = 0 := rfl
                  rw [h0] at hle
                  simp only [Int.ofNat_eq_coe] at hle hlt
                  push_cast at hle hlt
                  omega
                | cons y ys =>
                  rw [List.cons_append] at happ
                  injection happ with h1 h2
                  refine ih appID succ t ht hlt ys evs₂ h2 ?_
                  rw [← h1] at hle
                  have hcn : countPostOk (UpEvent.postBad e pcode :: ys)
                      = countPostOk ys := by
                    simp [countPostOk_cons, UpEvent.isPostOk]
                  rwa [hcn] at hle
              · by_cases hl : limit ≤ Int.ofNat (succ + 1)
                · rw [processEntries_postOk_limit env server limit e rest appID succ
                    u us code body pcode pbody hd' hul hdl hc hp hpc hl] at heq
                  simp only [Option.some.injEq] at heq
                  subst heq
                  cases evs₁ with
                  | nil =>
                    exfalso
                    have h0 : countPostOk ([] : List UpEvent) = 0 := rfl
                    rw [h0] at hle
                    simp only [Int.ofNat_eq_coe] at hle hlt
                    push_cast at hle hlt
                    omega
                  | cons y ys =>
                    rw [List.cons_append] at happ
                    injection happ with h1 h2
                    exact (List.append_eq_nil.mp h2.symm).2
                · rw [processEntries_postOk_cont env server limit e rest appID succ
                    u us code body pcode pbody hd' hul hdl hc hp hpc hl] at heq
                  obtain ⟨t, ht, rfl⟩ := Option.map_eq_some'.mp heq
                  have hlt' : Int.ofNat (succ + 1) < limit := by
                    simp only [Int.ofNat_eq_coe] at hl ⊢
                    omega
                  cases evs₁ with
                  | nil =>
                    exfalso
                    have h0 : countPostOk ([] : List UpEvent) = 0 := rfl
                    rw [h0] at hle
                    simp only [Int.ofNat_eq_coe] at hle hlt
                    push_cast at hle hlt
                    omega
                  | cons y ys =>
                    rw [List.cons_append] at happ
                    injection happ with h1 h2
                    refine ih appID (succ + 1) t ht hlt' ys evs₂ h2 ?_
                    rw [← h1] at hle
                    have hcn : countPostOk
                        (UpEvent.postOk e (postUrl server appID) :: ys)
                        = 1 + countPostOk ys := by
                      simp [countPostOk_cons, UpEvent.isPostOk]
                    rw [hcn] at hle
                    simp only [Int.ofNat_eq_coe] at hle ⊢
                    push_cast at hle ⊢
                    omega

/-- C4 (amended): for a configured limit of at least 1, each package performs
at most `limit` successful uploads, and once a trace prefix already holds
`limit` successes nothing follows it (the loop breaks at the limit-reaching
success); failed entries produce non-success events and never advance the
counter.  For `limit ≤ 0` the guarantee fails, because the check `success >=
limit` only runs after a success (see the counterexample). -/
theorem c4_at_most_limit_successes (env : UploadEnv) (server : String)
    (limit : Int) (l : List ChartVersion) (appID : String) (evs : List UpEvent)
    (hl : 1 ≤ limit)
    (heq : processEntries env server limit l appID 0 = some evs) :
    Int.ofNat (countPostOk evs) ≤ limit ∧
    ∀ evs₁ evs₂, evs = evs₁ ++ evs₂ →
      limit ≤ Int.ofNat (countPostOk evs₁) → evs₂ = [] := by
  have h0 : Int.ofNat 0 < limit := by
    simp only [Int.ofNat_eq_coe]
    push_cast
    omega
  constructor
  · simpa using c4_count_le env server limit l appID 0 evs heq h0
  · intro evs₁ evs₂ happ hle
    exact c4_stop env server limit l appID 0 evs heq h0 evs₁ evs₂ happ
      (by simpa using hle)

/-- Counterexample to C4 as stated: with the configurable limit 0 the uploader
still performs one successful upload (the limit check only runs after
`success++`), exceeding the claimed bound of at most 0 successes. -/
theorem c4_cex_zero_limit_still_uploads :
    processEntries envAllOk "S" 0 [ce1] "" 0 =
      some [UpEvent.postOk ce1 "S/kapis/application.kubesphere.io/v2/apps"] ∧
    ¬ Int.ofNat (countPostOk
        [UpEvent.postOk ce1 "S/kapis/application.kubesphere.io/v2/apps"]) ≤ 0 := by
  refine ⟨by decide, by decide⟩

/-- Witness for C4: limit 1 over two healthy entries gives a one-success
trace within the bound. -/
theorem c4_witness :
    Int.ofNat (countPostOk
      [UpEvent.postOk ce1 "S/kapis/application.kubesphere.io/v2/apps"]) ≤ 1 :=
  (c4_at_most_limit_successes envAllOk "S" 1 [ce1, ce2] "" _ (by decide)
    (by decide)).1

/-! ## C5: per-entry failures are absorbed -/

/-- An HTTP environment where every download yields a surfaced redirect
status (304, a non-2xx status that resty's `IsError` does not flag). -/
def envDown304 : UploadEnv :=
  { download := fun _ => HttpResult.resp 304 [9]
    post := fun _ _ => HttpResult.resp 200 [] }

/-- Counterexample to C5 as stated: a *non-2xx* download response with status
399 or below is not treated as a failure at all.  `IsError()` is
`StatusCode() > 399`, so a surfaced 304 passes the check and its body is
uploaded — consuming the success limit, so the next entry of the package is
never attempted — instead of being logged and skipped as the claim says. -/
theorem c5_cex_redirect_status_not_treated_as_failure :
    processEntries envDown304 "S" 1 [ce1, ce2] "" 0 =
      some [UpEvent.postOk ce1 "S/kapis/application.kubesphere.io/v2/apps"] ∧
    envDown304.download "u1" = HttpResult.resp 304 [9] ∧
    ¬ (200 ≤ 304 ∧ 304 ≤ 299) ∧
    ce2 ∉ List.map UpEvent.entry
      [UpEvent.postOk ce1 "S/kapis/application.kubesphere.io/v2/apps"] := by
  refine ⟨by decide, by decide, by decide, by decide⟩

/-- C5 (amended): each of the four per-entry failure modes the code actually
detects (download transport error, download status above 399, upload
transport error, upload status above 399 — resty's `IsError` is
`StatusCode() > 399`, so a non-2xx status of 399 or below counts as success
and is uploaded) logs one event and continues with the remaining entries of
the same package under the unchanged state, and `uploadChart` always hands
`nil` back to its caller (the error component of its result is `none`). -/
theorem c5_entry_failures_are_absorbed (env : UploadEnv) (server : String)
    (limit : Int) :
    (∀ e rest appID succ u us, e.deprecated = false → e.urls = u :: us →
      env.download u = HttpResult.transErr →
      processEntries env server limit (e :: rest) appID succ =
        (processEntries env server limit rest appID succ).map
          (fun t => UpEvent.fetchErr e :: t)) ∧
    (∀ e rest appID succ u us code body, e.deprecated = false →
      e.urls = u :: us → env.download u = HttpResult.resp code body →
      399 < code →
      processEntries env server limit (e :: rest) appID succ =
        (processEntries env server limit rest appID succ).map
          (fun t => UpEvent.fetchBad e code :: t)) ∧
    (∀ e rest appID succ u us code body, e.deprecated = false →
      e.urls = u :: us → env.download u = HttpResult.resp code body →
      ¬ 399 < code →
      env.post (postUrl server appID) (mkAppRequest body) = HttpResult.transErr →
      processEntries env server limit (e :: rest) appID succ =
        (processEntries env server limit rest appID succ).map
          (fun t => UpEvent.postErr e :: t)) ∧
    (∀ e rest appID succ u us code body pcode pbody, e.deprecated = false →
      e.urls = u :: us → env.download u = HttpResult.resp code body →
      ¬ 399 < code →
      env.post (postUrl server appID) (mkAppRequest body) =
        HttpResult.resp pcode pbody → 399 < pcode →
      processEntries env server limit (e :: rest) appID succ =
        (processEntries env server limit rest appID succ).map
          (fun t => UpEvent.postBad e pcode :: t)) ∧
    (∀ index r, uploadChart env server limit index = some r → r.2 = none) := by
  refine ⟨?_, ?_, ?_, ?_, ?_⟩
  · intro e rest appID succ u us hd hu hdl
    exact processEntries_fetchErr env server limit e rest appID succ u us hd hu hdl
  · intro e rest appID succ u us code body hd hu hdl hc
    exact processEntries_fetchBad env server limit e rest appID succ u us code body
      hd hu hdl hc
  · intro e rest appID succ u us code body hd hu hdl hc hp
    exact processEntries_postErr env server limit e rest appID succ u us code body
      hd hu hdl hc hp
  · intro e rest appID succ u us code body pcode pbody hd hu hdl hc hp hpc
    exact processEntries_postBad env server limit e rest appID succ u us code body
      pcode pbody hd hu hdl hc hp hpc
  · intro index
    induction index with
    | nil =>
      intro r h
      simp only [uploadChart, Option.some.injEq] at h
      rw [← h]
    | cons p rest ih =>
      intro r h
      obtain ⟨nm, es⟩ := p
      simp only [uploadChart] at h
      cases hpe : processEntries env server limit es "" 0 with
      | none =>
        rw [hpe] at h
        exact absurd h (by simp)
      | some evs =>
        rw [hpe] at h
        obtain ⟨a, ha, hfa⟩ := Option.map_eq_some'.mp h
        rw [← hfa]
        exact ih a ha

/-- Witness for C5: a download transport error on the only entry produces a
fetch-error event and processing continues with the (empty) remainder. -/
theorem c5_witness :
    processEntries envDownErr "S" 1 [ce1] "" 0 =
      (processEntries envDownErr "S" 1 [] "" 0).map
        (fun t => UpEvent.fetchErr ce1 :: t) :=
  (c5_entry_failures_are_absorbed envDownErr "S" 1).1 ce1 [] "" 0 "u1" [] rfl rfl rfl

/-! ## C9: the unconditional first-URL read -/

lemma processEntries_total (env : UploadEnv) (server : String) (limit : Int) :
    ∀ (l : List ChartVersion) (appID : String) (succ : Nat),
      (∀ e ∈ l, e.deprecated = false → e.urls ≠ []) →
      (processEntries env server limit l appID succ).isSome = true := by
  intro l
  induction l with
  | nil => intro appID succ _; simp [processEntries]
  | cons e rest ih =>
    intro appID succ h
    by_cases hd : e.deprecated = true
    · rw [processEntries_deprecated env server limit e rest appID succ hd]
      rfl
    · have hd' : e.deprecated = false := by simpa using hd
      have hu : e.urls ≠ [] := h e (by simp) hd'
      obtain ⟨u, us, hul⟩ : ∃ u us, e.urls = u :: us := by
        cases hul : e.urls with
        | nil => exact absurd hul hu
        | cons u us => exact ⟨u, us, rfl⟩
      have h' : ∀ x ∈ rest, x.deprecated = false → x.urls ≠ [] :=
        fun x hx => h x (by simp [hx])
      cases hdl : env.download u with
      | transErr =>
        rw [processEntries_fetchErr env server limit e rest appID succ u us
          hd' hul hdl]
        simpa using ih appID succ h'
      | resp code body =>
        by_cases hc : 399 < code
        · rw [processEntries_fetchBad env server limit e rest appID succ u us
            code body hd' hul hdl hc]
          simpa using ih appID succ h'
        · cases hp : env.post (postUrl server appID) (mkAppRequest body) with
          | transErr =>
            rw [processEntries_postErr env server limit e rest appID succ u us
              code body hd' hul hdl hc hp]
            simpa using ih appID succ h'
          | resp pcode pbody =>
            by_cases hpc : 399 < pcode
            · rw [processEntries_postBad env server limit e rest appID succ u us
                code body pcode pbody hd' hul hdl hc hp hpc]
              simpa using ih appID succ h'
            · by_cases hl : limit ≤ Int.ofNat (succ + 1)
              · rw [processEntries_postOk_limit env server limit e rest appID succ
                  u us code body pcode pbody hd' hul hdl hc hp hpc hl]
                rfl
              · rw [processEntries_postOk_cont env server limit e rest appID succ
                  u us code body pcode pbody hd' hul hdl hc hp hpc hl]
                simpa using ih appID (succ + 1) h'

lemma uploadChart_total (env : UploadEnv) (server : String) (limit : Int) :
    ∀ index, (∀ p ∈ index, ∀ e ∈ p.2, e.deprecated = false → e.urls ≠ []) →
      (uploadChart env server limit index).isSome = true := by
  intro index
  induction index with
  | nil => intro _; rfl
  | cons p rest ih =>
    intro h
    obtain ⟨nm, es⟩ := p
    have hes := processEntries_total env server limit es "" 0
      (fun e he => h (nm, es) (by simp) e he)
    simp only [uploadChart]
    cases hpe : processEntries env server limit es "" 0 with
    | none => rw [hpe] at hes; simp at hes
    | some evs =>
      simpa using ih (fun q hq => h q (by simp [hq]))

/-- C9: the download step reads the first URL of every processed entry
unconditionally.  Under the precondition that every non-deprecated entry has
a non-empty URL list the loop (and the whole uploader) is total; a processed
entry with zero URLs makes the access out of bounds (the loop panics). -/
theorem c9_first_url_read_unconditionally (env : UploadEnv) (server : String)
    (limit : Int) :
    (∀ l appID succ, (∀ e ∈ l, e.deprecated = false → e.urls ≠ []) →
      (processEntries env server limit l appID succ).isSome = true) ∧
    (∀ e rest appID succ, e.deprecated = false → e.urls = [] →
      processEntries env server limit (e :: rest) appID succ = none) ∧
    (∀ index, (∀ p ∈ index, ∀ e ∈ p.2, e.deprecated = false → e.urls ≠ []) →
      (uploadChart env server limit index).isSome = true) :=
  ⟨fun l appID succ h => processEntries_total env server limit l appID succ h,
    fun e rest appID succ hd hu =>
      processEntries_noUrl env server limit e rest appID succ hd hu,
    fun index h => uploadChart_total env server limit index h⟩

/-- Witness for C9: a healthy entry is processed to completion, while a
non-deprecated entry with an empty URL list makes the loop partial. -/
theorem c9_witness :
    (processEntries envAllOk "S" 1 [ce1] "" 0).isSome = true ∧
    processEntries envAllOk "S" 1 [ceNoUrl] "" 0 = none := by
  constructor
  · exact (c9_first_url_read_unconditionally envAllOk "S" 1).1 [ce1] "" 0 (by decide)
  · exact (c9_first_url_read_unconditionally envAllOk "S" 1).2.1 ceNoUrl [] "" 0
      rfl rfl

/-! ## C8: the label merge is additive -/

/-- Left-biased choice on optional lookup results: the combined map answers
with the patch when it binds the key, with the old map otherwise. -/
def orO : Option String → Option String → Option String
  | some v, _ => some v
  | none, o => o

lemma lookupL_not_mem (l : List (String × String)) (k : String)
    (h : k ∉ l.map Prod.fst) : lookupL l k = none := by
  induction l with
  | nil => rfl
  | cons p rest ih =>
    obtain ⟨a, b⟩ := p
    simp only [List.map_cons, List.mem_cons] at h
    push_neg at h
    simp only [lookupL]
    rw [if_neg (fun hh => h.1 hh.symm), ih h.2]

lemma lookupL_mapInsert (m : List (String × String)) (k v k' : String) :
    lookupL (mapInsert m k v) k' = if k = k' then some v else lookupL m k' := by
  induction m with
  | nil =>
    by_cases h : k = k' <;> simp [mapInsert, lookupL, h]
  | cons p rest ih =>
    obtain ⟨a, b⟩ := p
    by_cases hak : a = k
    · subst hak
      by_cases h : a = k'
      · subst h
        simp [mapInsert, lookupL]
      · simp [mapInsert, lookupL, h]
    · by_cases h : a = k'
      · subst h
        simp [mapInsert, lookupL, hak, Ne.symm hak]
      · simp [mapInsert, lookupL, hak, h, ih]

lemma lookupL_mergeLabels (patch : List (String × String))
    (hnd : (patch.map Prod.fst).Nodup) :
    ∀ (m : List (String × String)) (k : String),
      lookupL (mergeLabels m patch) k = orO (lookupL patch k) (lookupL m k) := by
  induction patch with
  | nil => intro m k; simp [mergeLabels, lookupL, orO]
  | cons p rest ih =>
    intro m k
    obtain ⟨k0, v0⟩ := p
    simp only [List.map_cons, List.nodup_cons] at hnd
    have hfold : mergeLabels m ((k0, v0) :: rest) =
        mergeLabels (mapInsert m k0 v0) rest := rfl
    rw [hfold, ih hnd.2]
    by_cases h : k0 = k
    · subst h
      rw [lookupL_not_mem rest k0 hnd.1, lookupL_mapInsert]
      simp [lookupL, orO]
    · rw [lookupL_mapInsert]
      simp [lookupL, h, orO, Ne.symm h]

lemma patchApp_of_labels_some (patch : List (String × String)) (a : KApp)
    (h : a.labels ≠ none) : patchApp patch a = some (patchAppT patch a) := by
  cases hl : a.labels with
  | none => exact absurd hl h
  | some m => simp [patchApp, patchAppT, goMapPatch, hl]

/-- C8: the label patch is additive.  On every application that carries a
label map, `updateAppLabel` replaces the labels by `mergeLabels old patch`,
and a lookup in the merged map answers with the patch value when the patch
binds the key and with the old value otherwise — so no key absent from the
patch is ever dropped. -/
theorem c8_label_patch_is_additive (patch : List (String × String))
    (hnd : (patch.map Prod.fst).Nodup) :
    (∀ (a : KApp) (m : List (String × String)), a.labels = some m →
      patchApp patch a = some { a with labels := some (mergeLabels m patch) }) ∧
    (∀ (m : List (String × String)) (k : String),
      lookupL (mergeLabels m patch) k = orO (lookupL patch k) (lookupL m k)) := by
  constructor
  · intro a m hm
    rw [patchApp_of_labels_some patch a (by simp [hm])]
    simp [patchAppT, hm]
  · exact lookupL_mergeLabels patch hnd

/-- Witness for C8: applying the patch `a ↦ 1` to a record labelled
`b ↦ 2` yields a map holding both bindings. -/
theorem c8_witness :
    lookupL (mergeLabels [("b", "2")] [("a", "1")]) "a" = some "1" ∧
    lookupL (mergeLabels [("b", "2")] [("a", "1")]) "b" = some "2" := by
  have h := (c8_label_patch_is_additive [("a", "1")] (by decide)).2
  constructor
  · rw [h [("b", "2")] "a"]
    decide
  · rw [h [("b", "2")] "b"]
    decide

/-! ## C6: fail-fast reconciliation stages -/

lemma stageLoop_ok {α : Type} (mutate : α → α) (upd : α → Except String Unit) :
    ∀ (l : List α), (∀ x ∈ l, upd (mutate x) = Except.ok ()) →
      stageLoop mutate upd l = (l.map mutate, none) := by
  intro l
  induction l with
  | nil => intro _; rfl
  | cons a rest ih =>
    intro h
    have ha := h a (by simp)
    simp only [stageLoop, ha, List.map_cons]
    rw [ih (fun x hx => h x (by simp [hx]))]

lemma stageLoop_firstFail {α : Type} (mutate : α → α)
    (upd : α → Except String Unit) :
    ∀ (pre : List α) (a : α) (post : List α) (e : String),
      (∀ x ∈ pre, upd (mutate x) = Except.ok ()) →
      upd (mutate a) = Except.error e →
      stageLoop mutate upd (pre ++ a :: post) =
        ((pre ++ [a]).map mutate, some e) := by
  intro pre
  induction pre with
  | nil =>
    intro a post e _ ha
    simp [stageLoop, ha]
  | cons x pre ih =>
    intro a post e hpre ha
    have hx := hpre x (by simp)
    rw [List.cons_append]
    simp only [stageLoop, hx]
    rw [ih a post e (fun y hy => hpre y (by simp [hy])) ha]
    simp

lemma labelLoop_firstFail (patch : List (String × String))
    (upd : KApp → Except String Unit) :
    ∀ (pre : List KApp) (a : KApp) (post : List KApp) (e : String),
      (∀ x ∈ pre, x.labels ≠ none ∧ upd (patchAppT patch x) = Except.ok ()) →
      a.labels ≠ none → upd (patchAppT patch a) = Except.error e →
      labelLoop patch upd (pre ++ a :: post) =
        some ((pre ++ [a]).map (patchAppT patch), some e) := by
  intro pre
  induction pre with
  | nil =>
    intro a post e _ hla ha
    rw [List.nil_append]
    simp only [labelLoop]
    rw [patchApp_of_labels_some patch a hla]
    simp [ha]
  | cons x pre ih =>
    intro a post e hpre hla ha
    obtain ⟨hlx, hx⟩ := hpre x (by simp)
    rw [List.cons_append]
    simp only [labelLoop]
    rw [patchApp_of_labels_some patch x hlx]
    simp only [hx]
    rw [ih a post e (fun y hy => hpre y (by simp [hy])) hla ha]
    simp

lemma versionAppsLoop_ok (env : VersionEnv) (now : String)
    (vsOf : KApp → List KVersion) :
    ∀ (apps : List KApp),
      (∀ x ∈ apps, env.listVersions x.name = Except.ok (vsOf x) ∧
        ∀ w ∈ vsOf x, env.updVersion (setVersionActive now w) = Except.ok ()) →
      versionAppsLoop env now apps =
        (apps.flatMap (fun x => (vsOf x).map (setVersionActive now)), none) := by
  intro apps
  induction apps with
  | nil => intro _; rfl
  | cons a rest ih =>
    intro h
    obtain ⟨hla, hva⟩ := h a (by simp)
    simp only [versionAppsLoop, hla]
    rw [stageLoop_ok (setVersionActive now) env.updVersion (vsOf a) hva]
    rw [ih (fun y hy => h y (by simp [hy]))]
    simp

lemma versionAppsLoop_listFail (env : VersionEnv) (now : String)
    (vsOf : KApp → List KVersion) :
    ∀ (pre : List KApp) (a : KApp) (post : List KApp) (e : String),
      (∀ x ∈ pre, env.listVersions x.name = Except.ok (vsOf x) ∧
        ∀ w ∈ vsOf x, env.updVersion (setVersionActive now w) = Except.ok ()) →
      env.listVersions a.name = Except.error e →
      versionAppsLoop env now (pre ++ a :: post) =
        (pre.flatMap (fun x => (vsOf x).map (setVersionActive now)), some e) := by
  intro pre
  induction pre with
  | nil =>
    intro a post e _ ha
    simp [versionAppsLoop, ha]
  | cons x pre ih =>
    intro a post e hpre ha
    obtain ⟨hlx, hvx⟩ := hpre x (by simp)
    rw [List.cons_append]
    simp only [versionAppsLoop, hlx]
    rw [stageLoop_ok (setVersionActive now) env.updVersion (vsOf x) hvx]
    rw [ih a post e (fun y hy => hpre y (by simp [hy])) ha]
    simp

lemma versionAppsLoop_updFail (env : VersionEnv) (now : String)
    (vsOf : KApp → List KVersion) :
    ∀ (pre : List KApp) (a : KApp) (post : List KApp) (vpre : List KVersion)
      (v : KVersion) (vpost : List KVersion) (e : String),
      (∀ x ∈ pre, env.listVersions x.name = Except.ok (vsOf x) ∧
        ∀ w ∈ vsOf x, env.updVersion (setVersionActive now w) = Except.ok ()) →
      env.listVersions a.name = Except.ok (vpre ++ v :: vpost) →
      (∀ w ∈ vpre, env.updVersion (setVersionActive now w) = Except.ok ()) →
      env.updVersion (setVersionActive now v) = Except.error e →
      versionAppsLoop env now (pre ++ a :: post) =
        (pre.flatMap (fun x => (vsOf x).map (setVersionActive now)) ++
          (vpre ++ [v]).map (setVersionActive now), some e) := by
  intro pre
  induction pre with
  | nil =>
    intro a post vpre v vpost e _ hla hvpre hv
    rw [List.nil_append]
    simp only [versionAppsLoop, hla]
    rw [stageLoop_firstFail (setVersionActive now) env.updVersion vpre v vpost e
      hvpre hv]
    simp
  | cons x pre ih =>
    intro a post vpre v vpost e hpre hla hvpre hv
    obtain ⟨hlx, hvx⟩ := hpre x (by simp)
    rw [List.cons_append]
    simp only [versionAppsLoop, hlx]
    rw [stageLoop_ok (setVersionActive now) env.updVersion (vsOf x) hvx]
    rw [ih a post vpre v vpost e (fun y hy => hpre y (by simp [hy])) hla hvpre hv]
    simp

/-- C6: every reconciliation stage is fail-fast.  A failing list call returns
its error with no update attempted; a failing per-item update call ends the
stage with that error right after the items already updated (whose update
calls stand — nothing in the stage revisits or reverts them), and no later
item of the iteration is attempted.  The first component of each result is
the exact sequence of update calls issued. -/
theorem c6_stage_stops_at_first_error (now : String) :
    (∀ (env : AppStatusEnv) (e : String), env.listApps = Except.error e →
      updateAppStatus env now = ([], some e)) ∧
    (∀ (env : AppStatusEnv) (pre : List KApp) (a : KApp) (post : List KApp)
      (e : String), env.listApps = Except.ok (pre ++ a :: post) →
      (∀ x ∈ pre, env.updStatus (setAppActive now x) = Except.ok ()) →
      env.updStatus (setAppActive now a) = Except.error e →
      updateAppStatus env now = ((pre ++ [a]).map (setAppActive now), some e)) ∧
    (∀ (env : LabelEnv) (patch : List (String × String)) (e : String),
      env.listApps = Except.error e →
      updateAppLabel env patch = some ([], some e)) ∧
    (∀ (env : LabelEnv) (patch : List (String × String)) (pre : List KApp)
      (a : KApp) (post : List KApp) (e : String),
      env.listApps = Except.ok (pre ++ a :: post) →
      (∀ x ∈ pre, x.labels ≠ none ∧ env.updApp (patchAppT patch x) = Except.ok ()) →
      a.labels ≠ none → env.updApp (patchAppT patch a) = Except.error e →
      updateAppLabel env patch =
        some ((pre ++ [a]).map (patchAppT patch), some e)) ∧
    (∀ (env : VersionEnv) (e : String), env.listApps = Except.error e →
      updateVersionStatus env now = ([], some e)) ∧
    (∀ (env : VersionEnv) (vsOf : KApp → List KVersion) (pre : List KApp)
      (a : KApp) (post : List KApp) (e : String),
      env.listApps = Except.ok (pre ++ a :: post) →
      (∀ x ∈ pre, env.listVersions x.name = Except.ok (vsOf x) ∧
        ∀ w ∈ vsOf x, env.updVersion (setVersionActive now w) = Except.ok ()) →
      env.listVersions a.name = Except.error e →
      updateVersionStatus env now =
        (pre.flatMap (fun x => (vsOf x).map (setVersionActive now)), some e)) ∧
    (∀ (env : VersionEnv) (vsOf : KApp → List KVersion) (pre : List KApp)
      (a : KApp) (post : List KApp) (vpre : List KVersion) (v : KVersion)
      (vpost : List KVersion) (e : String),
      env.listApps = Except.ok (pre ++ a :: post) →
      (∀ x ∈ pre, env.listVersions x.name = Except.ok (vsOf x) ∧
        ∀ w ∈ vsOf x, env.updVersion (setVersionActive now w) = Except.ok ()) →
      env.listVersions a.name = Except.ok (vpre ++ v :: vpost) →
      (∀ w ∈ vpre, env.updVersion (setVersionActive now w) = Except.ok ()) →
      env.updVersion (setVersionActive now v) = Except.error e →
      updateVersionStatus env now =
        (pre.flatMap (fun x => (vsOf x).map (setVersionActive now)) ++
          (vpre ++ [v]).map (setVersionActive now), some e)) := by
  refine ⟨?_, ?_, ?_, ?_, ?_, ?_, ?_⟩
  · intro env e h
    simp [updateAppStatus, h]
  · intro env pre a post e h hpre ha
    simp only [updateAppStatus, h]
    exact stageLoop_firstFail (setAppActive now) env.updStatus pre a post e hpre ha
  · intro env patch e h
    simp [updateAppLabel, h]
  · intro env patch pre a post e h hpre hla ha
    simp only [updateAppLabel, h]
    exact labelLoop_firstFail patch env.updApp pre a post e hpre hla ha
  · intro env e h
    simp [updateVersionStatus, h]
  · intro env vsOf pre a post e h hpre ha
    simp only [updateVersionStatus, h]
    exact versionAppsLoop_listFail env now vsOf pre a post e hpre ha
  · intro env vsOf pre a post vpre v vpost e h hpre hla hvpre hv
    simp only [updateVersionStatus, h]
    exact versionAppsLoop_updFail env now vsOf pre a post vpre v vpost e
      hpre hla hvpre hv

/-- A first application record matched by the sentinel selector. -/
def capp1 : KApp :=
  { name := "a1", labels := some [(categoryKey, mark)]
    statusState := "", statusUpdateTime := "" }

/-- A second application record matched by the sentinel selector. -/
def capp2 : KApp :=
  { name := "a2", labels := some [(categoryKey, mark)]
    statusState := "", statusUpdateTime := "" }

/-- An application status environment whose update call fails on `capp2`. -/
def cStatusEnv : AppStatusEnv :=
  { listApps := Except.ok [capp1, capp2]
    updStatus := fun a => if a.name = "a2" then Except.error "boom" else Except.ok () }

/-- Witness for C6: the status stage stops at the failing update of the
second item, with the first item's update already issued. -/
theorem c6_witness :
    updateAppStatus cStatusEnv "T" =
      ([setAppActive "T" capp1, setAppActive "T" capp2], some "boom") := by
  have hpre : ∀ x ∈ [capp1], cStatusEnv.updStatus (setAppActive "T" x) =
      Except.ok () := by
    intro x hx
    obtain rfl : x = capp1 := by simpa using hx
    rfl
  simpa using (c6_stage_stops_at_first_error "T").2.1 cStatusEnv [capp1] capp2 []
    "boom" rfl hpre rfl

/-! ## C7: stage order and the sentinel label -/

/-- C7: `run` invokes the stages in the fixed order app-status, store-label,
version-status, category-label — the invoked prefix is always an initial
segment of that order — and a failure of the version-status stage (after the
first two stages succeeded) ends the run without ever invoking the
category-rewrite stage.  Moreover stages 1 and 3 leave labels untouched, the
store patch of stage 2 never changes the sentinel category key, and only the
stage-4 patch rewrites it (to the uncategorized default). -/
theorem c7_stage_order_and_sentinel (now : String) :
    (∀ env : RunEnv, ∃ k, 1 ≤ k ∧ (run env now).1 = fourStages.take k) ∧
    (∀ (env : RunEnv) (r2 : List KApp × Option String) (e : String),
      (updateAppStatus env.s1 now).2 = none →
      updateAppLabel env.s2 storePatch = some r2 → r2.2 = none →
      (updateVersionStatus env.s3 now).2 = some e →
      run env now = ([Stage.appStatus, Stage.storeLabel, Stage.versionStatus],
        RunResult.fatal e) ∧
      Stage.categoryLabel ∉ (run env now).1) ∧
    (∀ a : KApp, (setAppActive now a).labels = a.labels) ∧
    (∀ m : List (String × String),
      lookupL (mergeLabels m storePatch) categoryKey = lookupL m categoryKey) ∧
    (∀ m : List (String × String),
      lookupL (mergeLabels m categoryPatch) categoryKey =
        some "kubesphere-app-uncategorized") := by
  refine ⟨?_, ?_, ?_, ?_, ?_⟩
  · intro env
    cases h1 : (updateAppStatus env.s1 now).2 with
    | some e => exact ⟨1, by omega, by simp only [run, h1]; decide⟩
    | none =>
      cases h2 : updateAppLabel env.s2 storePatch with
      | none => exact ⟨2, by omega, by simp only [run, h1, h2]; decide⟩
      | some r2 =>
        cases h2e : r2.2 with
        | some e => exact ⟨2, by omega, by simp only [run, h1, h2, h2e]; decide⟩
        | none =>
          cases h3 : (updateVersionStatus env.s3 now).2 with
          | some e => exact ⟨3, by omega, by simp only [run, h1, h2, h2e, h3]; decide⟩
          | none =>
            cases h4 : updateAppLabel env.s4 categoryPatch with
            | none => exact ⟨4, by omega, by simp only [run, h1, h2, h2e, h3, h4]; decide⟩
            | some r4 =>
              cases h4e : r4.2 with
              | some e =>
                exact ⟨4, by omega, by simp only [run, h1, h2, h2e, h3, h4, h4e]; decide⟩
              | none =>
                exact ⟨4, by omega, by simp only [run, h1, h2, h2e, h3, h4, h4e]; decide⟩
  · intro env r2 e h1 h2 h2e h3
    have hrun : run env now =
        ([Stage.appStatus, Stage.storeLabel, Stage.versionStatus],
          RunResult.fatal e) := by
      simp only [run, h1, h2, h2e, h3]
    exact ⟨hrun, by rw [hrun]; simp⟩
  · intro a
    rfl
  · intro m
    have h : mergeLabels m storePatch =
        mapInsert m "application.kubesphere.io/app-store" "true" := rfl
    rw [h, lookupL_mapInsert]
    rw [if_neg (by decide)]
  · intro m
    have h : mergeLabels m categoryPatch =
        mapInsert m categoryKey "kubesphere-app-uncategorized" := rfl
    rw [h, lookupL_mapInsert]
    rw [if_pos rfl]

/-- A run environment whose version-status stage fails at its list call
while the other stages see empty, healthy listings. -/
def cRunEnv : RunEnv :=
  { s1 := { listApps := Except.ok [], updStatus := fun _ => Except.ok () }
    s2 := { listApps := Except.ok [], updApp := fun _ => Except.ok () }
    s3 := { listApps := Except.error "vboom"
            listVersions := fun _ => Except.ok []
            updVersion := fun _ => Except.ok () }
    s4 := { listApps := Except.ok [], updApp := fun _ => Except.ok () } }

/-- Witness for C7: with the version-status stage failing, `run` executes
exactly the first three stages and never reaches the category rewrite. -/
theorem c7_witness :
    run cRunEnv "T" = ([Stage.appStatus, Stage.storeLabel, Stage.versionStatus],
      RunResult.fatal "vboom") :=
  ((c7_stage_order_and_sentinel "T").2.1 cRunEnv ([], none) "vboom"
    rfl rfl rfl rfl).1

/-! ## C10: the nil label map write -/

lemma matchesSelector_labels_ne_none (key val : String) (a : KApp)
    (h : matchesSelector key val a = true) : a.labels ≠ none := by
  cases hl : a.labels with
  | none => rw [matchesSelector, hl] at h; exact absurd h (by simp)
  | some m => simp [hl]

lemma labelLoop_total (patch : List (String × String))
    (upd : KApp → Except String Unit) :
    ∀ items : List KApp, (∀ a ∈ items, a.labels ≠ none) →
      (labelLoop patch upd items).isSome = true := by
  intro items
  induction items with
  | nil => intro _; rfl
  | cons a rest ih =>
    intro h
    have ha := h a (by simp)
    simp only [labelLoop]
    rw [patchApp_of_labels_some patch a ha]
    cases hu : upd (patchAppT patch a) with
    | error e => simp [hu]
    | ok _ =>
      simp only [hu, Option.isSome_map']
      exact ih (fun x hx => h x (by simp [hx]))

/-- C10: `updateAppLabel` writes the patch into the label map returned for
the listed object without initialising it.  The per-item loop is total when
every processed application carries a label map, and panics on the first item
whose label map is nil (as soon as the patch is non-empty); every record
matched by the sentinel label selector carries a label map, so under the
selector used by `run` the nil-map write is unreachable. -/
theorem c10_label_write_needs_nonnil_map (patch : List (String × String)) :
    (∀ (upd : KApp → Except String Unit) (items : List KApp),
      (∀ a ∈ items, a.labels ≠ none) →
      (labelLoop patch upd items).isSome = true) ∧
    (∀ (upd : KApp → Except String Unit) (a : KApp) (rest : List KApp)
      (p : String × String) (ps : List (String × String)),
      a.labels = none → patch = p :: ps →
      labelLoop patch upd (a :: rest) = none) ∧
    (∀ a : KApp, matchesSelector categoryKey mark a = true → a.labels ≠ none) ∧
    (∀ (env : LabelEnv) (items : List KApp), env.listApps = Except.ok items →
      (∀ a ∈ items, matchesSelector categoryKey mark a = true) →
      (updateAppLabel env patch).isSome = true) := by
  refine ⟨?_, ?_, ?_, ?_⟩
  · intro upd items h
    exact labelLoop_total patch upd items h
  · intro upd a rest p ps hla hp
    subst hp
    simp [labelLoop, patchApp, goMapPatch, hla]
  · intro a h
    exact matchesSelector_labels_ne_none categoryKey mark a h
  · intro env items hl h
    simp only [updateAppLabel, hl]
    exact labelLoop_total patch env.updApp items
      (fun a ha => matchesSelector_labels_ne_none categoryKey mark a (h a ha))

/-- An application record with a nil label map. -/
def cappNil : KApp :=
  { name := "x", labels := none, statusState := "", statusUpdateTime := "" }

/-- Witness for C10: the patch loop completes on a labelled record and
panics on a record with a nil label map. -/
theorem c10_witness :
    (labelLoop storePatch (fun _ => Except.ok ()) [capp1]).isSome = true ∧
    labelLoop storePatch (fun _ => Except.ok ()) [cappNil] = none := by
  constructor
  · refine (c10_label_write_needs_nonnil_map storePatch).1 _ [capp1] ?_
    intro a ha
    obtain rfl : a = capp1 := by simpa using ha
    simp [capp1]
  · exact (c10_label_write_needs_nonnil_map storePatch).2.1 _ cappNil []
      ("application.kubesphere.io/app-store", "true") [] rfl rfl
